import Mathlib

/-!
Verification of the build-driver core: a shallow embedding of
`src/process/drivers/local_driver.rs`, `src/process/drivers/podman_driver.rs`
and `src/process/drivers/opts/run.rs`, with theorems settling the frozen
claims about tag generation, metadata inspection and conversion, the
metadata-cache key, credential handling, and the container-signal
registration lifecycle of `run`/`run_output`.

External effects (subprocess spawns, waits, temp-dir creation, the git call)
are modelled by passing their outcomes in as explicit arguments and by
recording the externally visible actions in an event trace, so every
definition is executable and the control flow of the Rust source is
preserved exactly.
-/

namespace BlueBuild

/-! ## Tag generation — `src/process/drivers/local_driver.rs`

`LocalDriver::generate_tags` reads `os_version` (from
`Driver::get_os_version`), `timestamp` (from `get_tag_timestamp`) and
`short_sha` (from `commit_sha`) and then computes the tag list purely from
those three values and `opts.alt_tags`.  The pure computation (source lines
31-63) is embedded here with those values as arguments. -/

def generate_tags (os_version timestamp : String) (short_sha : Option String)
    (alt_tags : Option (List String)) : List String :=
  match alt_tags with
  | none =>
    let tags := ["latest", timestamp, os_version, timestamp ++ "-" ++ os_version]
    match short_sha with
    | some sha => tags ++ [sha ++ "-" ++ os_version]
    | none => tags
  | some alts =>
    alts.flatMap (fun alt =>
      let tags := [alt, alt ++ "-" ++ os_version, timestamp ++ "-" ++ alt ++ "-" ++ os_version]
      match short_sha with
      | some sha => tags ++ [sha ++ "-" ++ alt ++ "-" ++ os_version]
      | none => tags)

/-- Embeds `commit_sha` (source lines 77-87): runs `git rev-parse --short HEAD`; the
outcome of that subprocess is passed in as `gitResult` (`none` when the spawn
itself failed, otherwise the exit-success flag and captured stdout).  Absence
of a SHA is an ordinary `none`, never an error. -/
def commit_sha (gitResult : Option (Bool × String)) : Option String :=
  match gitResult with
  | none => none
  | some (success, stdout) => if success then some stdout.trim else none

/-- The per-alternate block of tags that the specification describes for
`generate_tags` with alternates; stated from the spec wording to be compared
against the source-derived `generate_tags`. -/
def spec_alt_block (os_version timestamp : String) (short_sha : Option String)
    (alt : String) : List String :=
  [alt, alt ++ "-" ++ os_version, timestamp ++ "-" ++ alt ++ "-" ++ os_version]
    ++ (match short_sha with
        | some sha => [sha ++ "-" ++ alt ++ "-" ++ os_version]
        | none => [])

/-! ## Local driver CI capabilities — `src/process/drivers/local_driver.rs` -/

def keyless_cert_identity : Except String String := .error "Keyless not supported"

def oidc_provider : Except String String := .error "Keyless not supported"

/-! ## Login — `src/process/drivers/podman_driver.rs`, `PodmanDriver::login`

The credential store (`Credentials::get()`) is an external collaborator; its
result is the `creds` argument.  The child process outcome is `childOk`.
The trace records every spawned command together with the data written to
its standard input. -/

structure Credentials where
  registry : String
  username : String
  password : String

structure SpawnedCommand where
  program : String
  args : List String
  stdin_data : String
deriving DecidableEq

def login (creds : Option Credentials) (childOk : Bool) :
    List SpawnedCommand × Except String Unit :=
  match creds with
  | none => ([], .ok ())
  | some c =>
    ([{ program := "podman"
        args := ["login", "-u", c.username, "--password-stdin", c.registry]
        stdin_data := c.password }],
      if childOk then .ok () else .error "Failed to login for podman")

/-! ## Metadata cache key — `src/process/drivers/podman_driver.rs`,
`get_metadata_cache` (lines 283-289)

The cache key is the Rust string
`format!("IMAGE-TAGDEBUG-PLATFORM")` built from `opts.image`, the `Debug`
rendering of `opts.tag.as_ref()` and the `Display` rendering of
`opts.platform`, joined with single dashes.  `Debug` for an optional string
prints `None`, or `Some(`, a double quote, the escaped text, a double quote
and `)`; `escape_debug_char` models the escaping Rust applies to the text
(quote, backslash and the common control characters; further non-printable
characters, which Rust renders as longer backslash escapes, are kept as
themselves — every rendered quote is still preceded by a backslash and the
rendering stays injective, the two properties the key analysis uses). -/

def escape_debug_char (c : Char) : List Char :=
  if c = '"' then ['\\', '"']
  else if c = '\\' then ['\\', '\\']
  else if c = '\n' then ['\\', 'n']
  else if c = '\r' then ['\\', 'r']
  else if c = '\t' then ['\\', 't']
  else [c]

def escape_debug : List Char → List Char
  | [] => []
  | c :: rest => escape_debug_char c ++ escape_debug rest

def debug_option_tag : Option String → String
  | none => "None"
  | some t => "Some(\"" ++ String.mk (escape_debug t.data) ++ "\")"

/-- Modelled from the spec: the target-platform selector of the metadata
options ("`Native` or explicit arch/OS pair"); its `Display` rendering, used
for the `--platform` flag and inside the cache key, is the OCI-style
`os/arch` pair and a fixed token for native — pairwise distinct strings
containing no dash. -/
inductive Platform
  | native
  | linuxAmd64
  | linuxArm64
deriving DecidableEq

def Platform.displayStr : Platform → String
  | .native => "native"
  | .linuxAmd64 => "linux/amd64"
  | .linuxArm64 => "linux/arm64"

/-- Modelled from the spec: `GetMetadataOpts` — the metadata-retrieval
options record, "keyed on (image, tag-or-none, platform)". -/
structure GetMetadataOpts where
  image : String
  tag : Option String
  platform : Platform
deriving DecidableEq

def get_metadata_key (opts : GetMetadataOpts) : String :=
  opts.image ++ "-" ++ debug_option_tag opts.tag ++ "-" ++ opts.platform.displayStr

/-! ## Inspection output conversion — `src/process/drivers/podman_driver.rs`,
`impl TryFrom<Vec<PodmanImageMetadata>> for ImageMetadata` (lines 43-87)

`labels` is a `HashMap<String, serde_json::Value>` that the conversion passes
through untouched; it is represented as an association list with string
values (the values are opaque to every operation embedded here).
`verify_image` spawns `podman pull` on the candidate digest; that external
outcome is the `verify` oracle argument.  The source performs the emptiness
check on the record list twice in a row (lines 47-52); the second check is
unreachable and the embedding keeps a single one.

The chosen entry is then parsed as an `oci_distribution::Reference`
(`.parse().into_diagnostic()?`, source lines 72-76) and its `.digest()`
component is extracted (lines 77-80).  `reference_parse` below embeds that
parser, a validator of the anchored reference grammar
`name (: tag)? (@ digest)?` with
`name = (domain /)? path-component (/ path-component)*`,
`domain = domain-component (. domain-component)* (: port)?` where domain
components are alphanumeric with inner dashes, path components are lowercase
alphanumeric runs whose separator runs are a dot, one or two underscores or
any number of dashes, `tag` is a word character followed by at most 127
word, dot or dash characters, and `digest = algorithm : hex` with an
alphabetic-led alphanumeric algorithm (components separated by one of
`-_+.`) and at least 32 hex digits; the parser also bounds the name part at
255 characters.  `reference_parse` returns `none` on a parse failure (the
`?` after `parse()` errors), `some none` for a valid reference without a
digest (`digest()` is `None`, the source errors with "Unable to read
digest"), and `some (some d)` for a valid reference with digest `d`.  The
digest grammar makes a second `@` or a short or non-hex digest a parse
failure, exactly as the crate's regex does. -/

structure PodmanImageMetadata where
  labels : List (String × String)
  repo_digests : List String
deriving DecidableEq

structure ImageMetadata where
  labels : List (String × String)
  digest : String
deriving DecidableEq

inductive MetadataError
  | noEntries
  | noRepoDigests
  | digestUnverifiable (repo_digests : List String)
  | referenceInvalid (repo_digest : String)
  | noDigestComponent (repo_digest : String)
deriving DecidableEq

def split_first (sep : Char) : List Char → Option (List Char × List Char)
  | [] => none
  | c :: rest =>
    if c = sep then some ([], rest)
    else (split_first sep rest).map (fun p => (c :: p.1, p.2))

def split_last (sep : Char) (cs : List Char) : Option (List Char × List Char) :=
  (split_first sep cs.reverse).map (fun p => (p.2.reverse, p.1.reverse))

def split_all (sep : Char) : List Char → List (List Char)
  | [] => [[]]
  | c :: rest =>
    if c = sep then [] :: split_all sep rest
    else
      match split_all sep rest with
      | [] => [[c]]
      | seg :: segs => (c :: seg) :: segs

def isLowerAlnum (c : Char) : Bool := c.isLower || c.isDigit

def is_domain_component (cs : List Char) : Bool :=
  match cs.head?, cs.getLast? with
  | some h, some l =>
    h.isAlphanum && l.isAlphanum && cs.all (fun c => c.isAlphanum || c == '-')
  | _, _ => false

def is_port (cs : List Char) : Bool := !cs.isEmpty && cs.all Char.isDigit

def is_domain (cs : List Char) : Bool :=
  match split_first ':' cs with
  | none => (split_all '.' cs).all is_domain_component
  | some (pre, post) => (split_all '.' pre).all is_domain_component && is_port post

inductive PcMode
  | start
  | afterAlnum
  | underscore
  | dashes
deriving DecidableEq

def pc_run : PcMode → List Char → Bool
  | .start, [] => false
  | .start, c :: rest => isLowerAlnum c && pc_run .afterAlnum rest
  | .afterAlnum, [] => true
  | .afterAlnum, c :: rest =>
    if isLowerAlnum c then pc_run .afterAlnum rest
    else if c = '.' then pc_run .start rest
    else if c = '_' then pc_run .underscore rest
    else if c = '-' then pc_run .dashes rest
    else false
  | .underscore, [] => false
  | .underscore, c :: rest =>
    if c = '_' then pc_run .start rest
    else isLowerAlnum c && pc_run .afterAlnum rest
  | .dashes, [] => false
  | .dashes, c :: rest =>
    if c = '-' then pc_run .dashes rest
    else isLowerAlnum c && pc_run .afterAlnum rest

def pc_start (cs : List Char) : Bool := pc_run .start cs

def is_path (cs : List Char) : Bool := (split_all '/' cs).all pc_start

def is_name (cs : List Char) : Bool :=
  match split_first '/' cs with
  | none => is_path cs
  | some (pre, post) => is_path cs || (is_domain pre && is_path post)

def is_word_char (c : Char) : Bool := c.isAlphanum || c == '_'

def is_tag : List Char → Bool
  | [] => false
  | c :: rest =>
    is_word_char c && rest.length ≤ 127
      && rest.all (fun d => is_word_char d || d == '.' || d == '-')

def alg_after : List Char → Bool
  | [] => true
  | c :: rest =>
    if c.isAlphanum then alg_after rest
    else if c = '-' || c = '_' || c = '+' || c = '.' then
      match rest with
      | [] => false
      | d :: rest₂ => d.isAlpha && alg_after rest₂
    else false

def is_algorithm : List Char → Bool
  | [] => false
  | c :: rest => c.isAlpha && alg_after rest

def is_hex_digit (c : Char) : Bool :=
  c.isDigit || ('a' ≤ c && c ≤ 'f') || ('A' ≤ c && c ≤ 'F')

def is_digest (cs : List Char) : Bool :=
  match split_first ':' cs with
  | none => false
  | some (algo, hex) =>
    is_algorithm algo && 32 ≤ hex.length && hex.all is_hex_digit

def name_tag_ok (cs : List Char) : Bool :=
  if is_name cs then cs.length ≤ 255
  else
    match split_last ':' cs with
    | some (pre, post) => is_name pre && is_tag post && pre.length ≤ 255
    | none => false

def reference_parse (s : String) : Option (Option String) :=
  match split_first '@' s.data with
  | none => if name_tag_ok s.data then some none else none
  | some (pre, post) =>
    if name_tag_ok pre && is_digest post then some (some (String.mk post)) else none

def image_metadata_try_from (verify : String → Bool)
    (value : List PodmanImageMetadata) : Except MetadataError ImageMetadata :=
  match value with
  | [] => .error .noEntries
  | first :: _ =>
    if first.repo_digests.isEmpty then .error .noRepoDigests
    else
      match first.repo_digests.find? verify with
      | none => .error (.digestUnverifiable first.repo_digests)
      | some repo_digest =>
        match reference_parse repo_digest with
        | none => .error (.referenceInvalid repo_digest)
        | some none => .error (.noDigestComponent repo_digest)
        | some (some digest) => .ok { labels := first.labels, digest := digest }

def sample_repo_digest : String := "repo@sha256:aaaaaaaaaaaaaaaaaaaaaaaaaaaaaaaaaaaaaaaaaaaaaaaaaaaaaaaaaaaaaaaa"

def sample_digest : String := "sha256:aaaaaaaaaaaaaaaaaaaaaaaaaaaaaaaaaaaaaaaaaaaaaaaaaaaaaaaaaaaaaaaa"

/-! ## `run` / `run_output` — `src/process/drivers/podman_driver.rs`,
`impl RunDriver for PodmanDriver` (lines 450-494), and
`src/process/drivers/opts/run.rs`

External steps are modelled by arguments (`isRoot` for
`nix::unistd::Uid::effective().is_root()`, `tempdirOk` for `TempDir::new()`,
`waitResult` for the `build_status`/`output` call on the spawned command) and
the externally visible actions are recorded in order in an event trace:
creating the private temp dir holding the cid file, `add_cid`, running the
container command to completion, `remove_cid`.  The `?` operators of the
source are early returns of the `.error` cases. -/

structure RunOptsVolume where
  path_or_vol_name : String
  container_path : String
deriving DecidableEq

structure RunOptsEnv where
  key : String
  value : String
deriving DecidableEq

structure RunOpts where
  image : String
  args : List String
  env_vars : List RunOptsEnv
  volumes : List RunOptsVolume
  uid : Option Nat
  gid : Option Nat
  privileged : Bool
  pull : Bool
  remove : Bool
deriving DecidableEq

inductive RunEvent
  | mkTempDir
  | add_cid (privileged : Bool)
  | runCommand
  | remove_cid (privileged : Bool)
deriving DecidableEq

structure Output where
  status : Int
  stdout : String
  stderr : String
deriving DecidableEq

def rootError : String := "You must be root to run privileged podman!"

def run (isRoot tempdirOk : Bool) (opts : RunOpts)
    (waitResult : Except String Int) : List RunEvent × Except String Int :=
  if isRoot = false then ([], .error rootError)
  else if tempdirOk = false then ([], .error "failed to create temporary directory")
  else
    match waitResult with
    | .error e => ([.mkTempDir, .add_cid opts.privileged, .runCommand], .error e)
    | .ok status =>
      ([.mkTempDir, .add_cid opts.privileged, .runCommand, .remove_cid opts.privileged],
        .ok status)

def run_output (isRoot tempdirOk : Bool) (opts : RunOpts)
    (outputResult : Except String Output) : List RunEvent × Except String Output :=
  if isRoot = false then ([], .error rootError)
  else if tempdirOk = false then ([], .error "failed to create temporary directory")
  else
    match outputResult with
    | .error e => ([.mkTempDir, .add_cid opts.privileged, .runCommand], .error e)
    | .ok out =>
      ([.mkTempDir, .add_cid opts.privileged, .runCommand, .remove_cid opts.privileged],
        .ok out)

def sampleRunOpts : RunOpts :=
  { image := "registry.example/img", args := [], env_vars := [], volumes := []
    uid := none, gid := none, privileged := false, pull := false, remove := false }

end BlueBuild

namespace BlueBuild

/-- C6: with no alternate tags, `generate_tags` returns exactly
`[latest, timestamp, os_version, timestamp-os_version]`, extended with
`sha-os_version` exactly when a short commit SHA is available; SHA absence is
an ordinary value of `commit_sha`, never an error, and matches the spec's
concrete example. -/
theorem generate_tags_no_alternates :
    ∀ (os_version timestamp sha s : String),
      generate_tags os_version timestamp none none
        = ["latest", timestamp, os_version, timestamp ++ "-" ++ os_version]
      ∧ generate_tags os_version timestamp (some sha) none
        = ["latest", timestamp, os_version, timestamp ++ "-" ++ os_version,
            sha ++ "-" ++ os_version]
      ∧ commit_sha none = none
      ∧ commit_sha (some (false, s)) = none
      ∧ generate_tags "40" "20240101" (some "abcd123") none
        = ["latest", "20240101", "40", "20240101-40", "abcd123-40"] := by
  intro os_version timestamp sha s
  refine ⟨rfl, rfl, rfl, rfl, rfl⟩

/-- C7: with alternate tags, `generate_tags` is the order-preserving
concatenation of one block per alternate (the block of the spec wording),
is a homomorphism with respect to list concatenation of the alternates
(hence preserves duplicates and performs no deduplication), and matches the
spec's concrete example. -/
theorem generate_tags_alternates :
    ∀ (os_version timestamp : String) (short_sha : Option String)
      (alts alts₂ : List String),
      generate_tags os_version timestamp short_sha (some alts)
        = alts.flatMap (spec_alt_block os_version timestamp short_sha)
      ∧ generate_tags os_version timestamp short_sha (some (alts ++ alts₂))
        = generate_tags os_version timestamp short_sha (some alts)
          ++ generate_tags os_version timestamp short_sha (some alts₂)
      ∧ generate_tags "40" "20240101" none (some ["stable", "beta"])
        = ["stable", "stable-40", "20240101-stable-40",
            "beta", "beta-40", "20240101-beta-40"] := by
  intro os_version timestamp short_sha alts alts₂
  refine ⟨?_, ?_, rfl⟩
  · simp only [generate_tags, spec_alt_block]
    refine congrArg _ (funext fun alt => ?_)
    cases short_sha <;> rfl
  · simp only [generate_tags, List.flatMap_append]

/-- C8: `LocalDriver::keyless_cert_identity` and `LocalDriver::oidc_provider`
always return the "not supported" error and never return any value. -/
theorem local_keyless_unsupported :
    keyless_cert_identity = .error "Keyless not supported"
    ∧ oidc_provider = .error "Keyless not supported"
    ∧ keyless_cert_identity.isOk = false
    ∧ oidc_provider.isOk = false := by
  refine ⟨rfl, rfl, rfl, rfl⟩

/-- C9: `PodmanDriver::login` succeeds without spawning any subprocess when
the credential store supplies nothing; with credentials it spawns exactly one
command whose argument vector is `[login, -u, username, --password-stdin,
registry]`, the password is written only to that child's standard input, and
the argument vector does not depend on the password. -/
theorem login_password_via_stdin :
    (∀ childOk : Bool, login none childOk = ([], Except.ok ()))
    ∧ (∀ (c : Credentials) (childOk : Bool) (p : String),
        (login (some c) childOk).1.map SpawnedCommand.args
          = [["login", "-u", c.username, "--password-stdin", c.registry]]
        ∧ (login (some c) childOk).1.map SpawnedCommand.stdin_data = [c.password]
        ∧ (login (some { c with password := p }) childOk).1.map SpawnedCommand.args
          = (login (some c) childOk).1.map SpawnedCommand.args) := by
  refine ⟨fun childOk => rfl, fun c childOk p => ⟨rfl, rfl, rfl⟩⟩

theorem escape_debug_char_ne_nil (c : Char) : escape_debug_char c ≠ [] := by
  unfold escape_debug_char
  split_ifs <;> simp

theorem first_sep : ∀ (a : List Char) {b x y : List Char}, '-' ∉ a → '-' ∉ b →
    a ++ '-' :: x = b ++ '-' :: y → a = b ∧ x = y := by
  intro a
  induction a with
  | nil =>
    intro b x y _ hb h
    cases b with
    | nil => simpa using h
    | cons c bs =>
      simp only [List.nil_append, List.cons_append, List.cons.injEq] at h
      exact absurd (h.1 ▸ List.mem_cons_self c bs) hb
  | cons c as ih =>
    intro b x y ha hb h
    cases b with
    | nil =>
      simp only [List.cons_append, List.nil_append, List.cons.injEq] at h
      exact absurd (h.1 ▸ List.mem_cons_self c as) ha
    | cons d bs =>
      simp only [List.cons_append, List.cons.injEq] at h
      have ha' : '-' ∉ as := fun hm => ha (List.mem_cons_of_mem c hm)
      have hb' : '-' ∉ bs := fun hm => hb (List.mem_cons_of_mem d hm)
      obtain ⟨h1, h2⟩ := ih ha' hb' h.2
      exact ⟨by rw [h.1, h1], h2⟩

theorem last_sep {x y p q : List Char} (hp : '-' ∉ p) (hq : '-' ∉ q)
    (h : x ++ '-' :: p = y ++ '-' :: q) : x = y ∧ p = q := by
  have h' : p.reverse ++ '-' :: x.reverse = q.reverse ++ '-' :: y.reverse := by
    have := congrArg List.reverse h
    simpa [List.reverse_append, List.append_assoc] using this
  have hp' : '-' ∉ p.reverse := by simpa using hp
  have hq' : '-' ∉ q.reverse := by simpa using hq
  obtain ⟨h1, h2⟩ := first_sep p.reverse hp' hq' h'
  exact ⟨List.reverse_injective h2, List.reverse_injective h1⟩

theorem escape_quote_preceded : ∀ (s u v : List Char),
    escape_debug s = u ++ '"' :: v → ∃ w, u = w ++ ['\\'] := by
  intro s
  induction s with
  | nil =>
    intro u v h
    simp [escape_debug] at h
  | cons c s ih =>
    intro u v h
    rw [show escape_debug (c :: s) = escape_debug_char c ++ escape_debug s from rfl] at h
    unfold escape_debug_char at h
    split_ifs at h with h1 h2 h3 h4 h5
    case pos =>
      -- escape_debug_char c = ['\\', '"']
      cases u with
      | nil => simp at h
      | cons a u =>
        cases u with
        | nil =>
          simp only [List.cons_append, List.nil_append, List.cons.injEq] at h
          exact ⟨[], by simp [← h.1]⟩
        | cons b u =>
          simp only [List.cons_append, List.cons.injEq] at h
          obtain ⟨w, hw⟩ := ih u v h.2.2
          exact ⟨a :: b :: w, by simp [hw]⟩
    all_goals {
      first
      | -- two-character escapes that do not contain '"'
        (cases u with
        | nil => simp at h
        | cons a u =>
          cases u with
          | nil => simp at h
          | cons b u =>
            simp only [List.cons_append, List.cons.injEq] at h
            obtain ⟨w, hw⟩ := ih u v h.2.2
            exact ⟨a :: b :: w, by simp [hw]⟩)
      | -- single ordinary character, which is not '"'
        (cases u with
        | nil =>
          simp only [List.singleton_append, List.nil_append, List.cons.injEq] at h
          exact absurd h.1 h1
        | cons a u =>
          simp only [List.singleton_append, List.cons_append, List.cons.injEq] at h
          obtain ⟨w, hw⟩ := ih u v h.2
          exact ⟨a :: w, by simp [hw]⟩)
    }

theorem escape_debug_injective : ∀ s t : List Char,
    escape_debug s = escape_debug t → s = t := by
  intro s
  induction s with
  | nil =>
    intro t h
    cases t with
    | nil => rfl
    | cons d t =>
      exfalso
      have h' : escape_debug_char d ++ escape_debug t = [] := by
        simpa [escape_debug] using h.symm
      exact escape_debug_char_ne_nil d (List.append_eq_nil.mp h').1
  | cons c s ih =>
    intro t h
    cases t with
    | nil =>
      exfalso
      have h' : escape_debug_char c ++ escape_debug s = [] := by
        simpa [escape_debug] using h
      exact escape_debug_char_ne_nil c (List.append_eq_nil.mp h').1
    | cons d t =>
      have h' : escape_debug_char c ++ escape_debug s
          = escape_debug_char d ++ escape_debug t := by
        simpa [escape_debug] using h
      unfold escape_debug_char at h'
      split_ifs at h' <;> simp_all <;>
        first
        | exact ih t rfl
        | exact ih t h'
        | exact ih t h'.2
        | exact absurd h'.1.symm (by assumption)


theorem append_last_ne {x y : Char} (hxy : x ≠ y) (a b : List Char) :
    a ++ [x] ≠ b ++ [y] := by
  intro h
  have h' := congrArg List.reverse h
  simp [List.reverse_append] at h'
  exact hxy h'.1

theorem strip_last_two {x y : Char} {A B : List Char}
    (h : A ++ [x, y] = B ++ [x, y]) : A = B := by
  have h' := congrArg List.reverse h
  simpa [List.reverse_append] using h'

theorem debug_none_data : (debug_option_tag none).data = ['N', 'o', 'n', 'e'] := rfl

theorem debug_some_data (t : String) :
    (debug_option_tag (some t)).data
      = ['S', 'o', 'm', 'e', '(', '"'] ++ (escape_debug t.data ++ ['"', ')']) := by
  show ("Some(\"" ++ String.mk (escape_debug t.data) ++ "\")").data = _
  simp [String.data_append, List.append_assoc]

theorem debug_option_tag_injective : ∀ t₁ t₂ : Option String,
    (debug_option_tag t₁).data = (debug_option_tag t₂).data → t₁ = t₂ := by
  intro t₁ t₂ h
  cases t₁ with
  | none =>
    cases t₂ with
    | none => rfl
    | some t =>
      rw [debug_none_data, debug_some_data] at h
      simp at h
  | some u =>
    cases t₂ with
    | none =>
      rw [debug_none_data, debug_some_data] at h
      simp at h
    | some t =>
      rw [debug_some_data, debug_some_data] at h
      simp only [List.append_right_inj, List.append_left_inj] at h
      have h' : escape_debug u.data = escape_debug t.data := by simpa using h
      exact congrArg some (String.ext (escape_debug_injective _ _ h'))

theorem debug_no_embed : ∀ (t₁ t₂ : Option String) (r : List Char),
    (debug_option_tag t₁).data ≠ r ++ '-' :: (debug_option_tag t₂).data := by
  intro t₁ t₂ r h
  cases t₁ with
  | none =>
    have hl := congrArg List.length h
    rw [debug_none_data] at hl
    cases t₂ with
    | none =>
      rw [debug_none_data] at hl
      simp [List.length_append] at hl
    | some t =>
      rw [debug_some_data] at hl
      simp [List.length_append] at hl
      omega
  | some u =>
    cases t₂ with
    | none =>
      rw [debug_some_data, debug_none_data] at h
      have h' := congrArg List.reverse h
      simp [List.reverse_append] at h'
    | some t =>
      rw [debug_some_data, debug_some_data] at h
      -- strip the common closing characters
      have h₃ : (['S', 'o', 'm', 'e', '(', '"'] ++ escape_debug u.data) ++ ['"', ')']
          = (r ++ '-' :: (['S', 'o', 'm', 'e', '(', '"'] ++ escape_debug t.data)) ++ ['"', ')'] := by
        simpa only [List.append_assoc, List.cons_append, List.nil_append] using h
      have h₂ : ['S', 'o', 'm', 'e', '(', '"'] ++ escape_debug u.data
          = r ++ '-' :: (['S', 'o', 'm', 'e', '(', '"'] ++ escape_debug t.data) :=
        strip_last_two h₃
      rcases List.append_eq_append_iff.mp h₂ with ⟨a, ha, hb⟩ | ⟨a, ha, hb⟩
      · -- r extends past the opening characters into the escaped text
        have hb' : escape_debug u.data
            = (a ++ ['-', 'S', 'o', 'm', 'e', '(']) ++ '"' :: escape_debug t.data := by
          simpa [List.append_assoc] using hb
        obtain ⟨w, hw⟩ := escape_quote_preceded u.data _ _ hb'
        have hw' : (a ++ ['-', 'S', 'o', 'm', 'e']) ++ ['('] = w ++ ['\\'] := by
          simpa [List.append_assoc] using hw
        exact append_last_ne (by decide) _ _ hw'
      · cases a with
        | nil =>
          have hb' : escape_debug u.data
              = ['-', 'S', 'o', 'm', 'e', '('] ++ '"' :: escape_debug t.data := by
            simpa using hb.symm
          obtain ⟨w, hw⟩ := escape_quote_preceded u.data _ _ hb'
          have hw' : (['-', 'S', 'o', 'm', 'e'] : List Char) ++ ['('] = w ++ ['\\'] := by
            simpa using hw
          exact append_last_ne (by decide) _ _ hw'
        | cons ch a' =>
          have hch : ch = '-' := by
            have := hb.symm
            simp only [List.cons_append, List.cons.injEq] at this
            exact this.1
          have hmem : ('-' : Char) ∈ (['S', 'o', 'm', 'e', '(', '"'] : List Char) := by
            rw [ha, hch]
            simp
          exact absurd hmem (by decide)

theorem image_tag_sep : ∀ (i₁ i₂ : List Char) (t₁ t₂ : Option String),
    i₁ ++ '-' :: (debug_option_tag t₁).data = i₂ ++ '-' :: (debug_option_tag t₂).data →
    i₁ = i₂ ∧ t₁ = t₂ := by
  intro i₁ i₂ t₁ t₂ h
  rcases List.append_eq_append_iff.mp h with ⟨a, ha, hb⟩ | ⟨a, ha, hb⟩
  · cases a with
    | nil =>
      refine ⟨by simpa using ha.symm, ?_⟩
      have hb' : (debug_option_tag t₁).data = (debug_option_tag t₂).data := by
        simpa using hb
      exact debug_option_tag_injective _ _ hb'
    | cons ch a' =>
      exfalso
      have : (debug_option_tag t₁).data = a' ++ '-' :: (debug_option_tag t₂).data := by
        have := hb
        simp only [List.cons_append, List.cons.injEq] at this
        exact this.2
      exact debug_no_embed t₁ t₂ a' this
  · cases a with
    | nil =>
      refine ⟨by simpa using ha, ?_⟩
      have hb' : (debug_option_tag t₂).data = (debug_option_tag t₁).data := by
        simpa using hb
      exact (debug_option_tag_injective _ _ hb').symm
    | cons ch a' =>
      exfalso
      have : (debug_option_tag t₂).data = a' ++ '-' :: (debug_option_tag t₁).data := by
        have := hb
        simp only [List.cons_append, List.cons.injEq] at this
        exact this.2
      exact debug_no_embed t₂ t₁ a' this

theorem platform_display_no_dash : ∀ p : Platform, '-' ∉ p.displayStr.data := by
  intro p
  cases p <;> decide

theorem platform_display_injective : ∀ p q : Platform,
    p.displayStr.data = q.displayStr.data → p = q := by
  intro p q h
  cases p <;> cases q <;> first | rfl | exact absurd h (by decide)

theorem dash_data : ("-" : String).data = ['-'] := rfl

theorem get_metadata_key_data (o : GetMetadataOpts) :
    (get_metadata_key o).data
      = (o.image.data ++ '-' :: (debug_option_tag o.tag).data)
        ++ '-' :: o.platform.displayStr.data := by
  simp [get_metadata_key, String.data_append, dash_data, List.append_assoc]

/-- C3: the function building the metadata-cache key string from the
(image, tag, platform) triple of `GetMetadataOpts` is injective: records
differing in image, tag or platform always produce different key strings,
so distinct option combinations never share a cache entry. -/
theorem metadata_cache_key_injective :
    ∀ o₁ o₂ : GetMetadataOpts,
      get_metadata_key o₁ = get_metadata_key o₂ → o₁ = o₂ := by
  intro o₁ o₂ h
  have hd := congrArg String.data h
  rw [get_metadata_key_data, get_metadata_key_data] at hd
  obtain ⟨hX, hP⟩ := last_sep (platform_display_no_dash o₁.platform)
    (platform_display_no_dash o₂.platform) hd
  obtain ⟨hi, ht⟩ := image_tag_sep _ _ _ _ hX
  have himg : o₁.image = o₂.image := String.ext hi
  have hplat := platform_display_injective _ _ hP
  cases o₁
  cases o₂
  simp_all

/-- Witness for C3: `metadata_cache_key_injective` applied at a concrete
key equation. -/
theorem metadata_cache_key_injective_witness :
    (⟨"img", some "t", Platform.native⟩ : GetMetadataOpts)
      = ⟨"img", some "t", Platform.native⟩ :=
  metadata_cache_key_injective _ _ rfl

/-- C5: the conversion of podman inspection output fails on an empty record
list and on a first record with an empty `repo_digests` list; in both cases
the result is a fixed error independent of the verification oracle (so no
verification is attempted), and the conversion only ever depends on the
first record of the list. -/
theorem inspect_empty_fails :
    (∀ verify : String → Bool, image_metadata_try_from verify [] = .error .noEntries)
    ∧ (∀ (verify : String → Bool) (labels : List (String × String))
        (rest : List PodmanImageMetadata),
        image_metadata_try_from verify ({ labels := labels, repo_digests := [] } :: rest)
          = .error .noRepoDigests)
    ∧ (∀ (verify : String → Bool) (first : PodmanImageMetadata)
        (rest₁ rest₂ : List PodmanImageMetadata),
        image_metadata_try_from verify (first :: rest₁)
          = image_metadata_try_from verify (first :: rest₂)) := by
  refine ⟨fun verify => rfl, fun verify labels rest => rfl,
    fun verify first rest₁ rest₂ => rfl⟩

/-- C4 counterexample: the record list with the single entry `podman` has a
non-empty `repo_digests` list and its entry passes the verification oracle,
yet the conversion fails (the entry parses as a reference without a digest
component, so `digest()` is `None`); likewise a verifying entry whose digest
part is not a valid `algorithm:hex` with at least 32 hex digits makes the
reference parse itself fail.  In both cases the conversion does not return
metadata whose digest is taken from the first verifying entry, refuting the
claim as stated. -/
theorem digest_selection_counterexample :
    (["podman"].find? (fun _ => true) = some "podman")
    ∧ (image_metadata_try_from (fun _ => true)
        [{ labels := [], repo_digests := ["podman"] }]).isOk = false
    ∧ (image_metadata_try_from (fun _ => true)
        [{ labels := [], repo_digests := ["repo@sha256:abc"] }]).isOk = false := by
  exact ⟨rfl, rfl, rfl⟩

/-- C4 (amended): for a first record with repo digests `ds` whose first
entry `d` passing verification parses as a valid image reference carrying a
digest `dig`, the conversion returns metadata with that record's labels and
digest `dig`; if `d` fails to parse as a reference, or parses without a
digest component, the conversion fails with an error naming `d`; and when no
entry verifies, it fails with an error listing all reported digests. -/
theorem digest_selection :
    ∀ (verify : String → Bool) (labels : List (String × String)) (ds : List String)
      (rest : List PodmanImageMetadata),
      (∀ (d dig : String), ds.find? verify = some d →
        reference_parse d = some (some dig) →
        image_metadata_try_from verify ({ labels := labels, repo_digests := ds } :: rest)
          = .ok { labels := labels, digest := dig })
      ∧ (∀ d : String, ds.find? verify = some d → reference_parse d = none →
        image_metadata_try_from verify ({ labels := labels, repo_digests := ds } :: rest)
          = .error (.referenceInvalid d))
      ∧ (∀ d : String, ds.find? verify = some d → reference_parse d = some none →
        image_metadata_try_from verify ({ labels := labels, repo_digests := ds } :: rest)
          = .error (.noDigestComponent d))
      ∧ (ds ≠ [] → ds.find? verify = none →
        image_metadata_try_from verify ({ labels := labels, repo_digests := ds } :: rest)
          = .error (.digestUnverifiable ds)) := by
  intro verify labels ds rest
  have hcons : ∀ d : String, ds.find? verify = some d → ds.isEmpty = false := by
    intro d hfind
    cases ds with
    | nil => simp at hfind
    | cons a l => rfl
  refine ⟨?_, ?_, ?_, ?_⟩
  · intro d dig hfind hparse
    simp only [image_metadata_try_from, hcons d hfind, Bool.false_eq_true, if_false,
      hfind, hparse]
  · intro d hfind hparse
    simp only [image_metadata_try_from, hcons d hfind, Bool.false_eq_true, if_false,
      hfind, hparse]
  · intro d hfind hparse
    simp only [image_metadata_try_from, hcons d hfind, Bool.false_eq_true, if_false,
      hfind, hparse]
  · intro hne hfind
    have hne' : ds.isEmpty = false := by
      cases ds with
      | nil => exact absurd rfl hne
      | cons a l => rfl
    simp only [image_metadata_try_from, hne', Bool.false_eq_true, if_false, hfind]

/-- Witness for C4: concrete runs of the success branch (a verifying entry
with a full 64-hex-digit digest) and of the all-rejected branch of
`digest_selection`. -/
theorem digest_selection_witness :
    image_metadata_try_from (fun d => d == sample_repo_digest)
      [{ labels := [("a", "b")], repo_digests := ["bad", sample_repo_digest] }]
      = .ok { labels := [("a", "b")], digest := sample_digest }
    ∧ image_metadata_try_from (fun _ => false)
        [{ labels := [], repo_digests := ["x"] }]
      = .error (.digestUnverifiable ["x"]) := by
  constructor
  · exact (digest_selection (fun d => d == sample_repo_digest) [("a", "b")]
      ["bad", sample_repo_digest] []).1 sample_repo_digest sample_digest
      (by decide) (by decide)
  · exact (digest_selection (fun _ => false) [] ["x"] []).2.2.2 (by decide) (by decide)

/-- C1 counterexample: with the effective user root and the temp dir created,
a failing `build_status` call in `PodmanDriver::run` returns early through
`?`, so the trace records `add_cid` but never `remove_cid`: the registration
is not removed on the error return path. -/
theorem run_cid_counterexample :
    (run true true sampleRunOpts (.error "wait failed")).1
      = [.mkTempDir, .add_cid false, .runCommand]
    ∧ RunEvent.add_cid false ∈ (run true true sampleRunOpts (.error "wait failed")).1
    ∧ RunEvent.remove_cid false ∉ (run true true sampleRunOpts (.error "wait failed")).1
    ∧ (run_output true true sampleRunOpts (.error "wait failed")).1
      = [.mkTempDir, .add_cid false, .runCommand] := by
  refine ⟨rfl, by decide, by decide, rfl⟩

/-- C1 (amended): in `run`/`run_output` the registration is added via
`add_cid` before the container command is spawned, and is removed via
`remove_cid` after the child has been waited on exactly on the path where
the `build_status`/`output` call returns successfully; when that call
returns an error, the function returns early through `?` without calling
`remove_cid`. -/
theorem run_cid_registration :
    ∀ (opts : RunOpts) (s : Int) (out : Output) (e : String),
      run true true opts (.ok s)
        = ([.mkTempDir, .add_cid opts.privileged, .runCommand,
            .remove_cid opts.privileged], .ok s)
      ∧ run true true opts (.error e)
        = ([.mkTempDir, .add_cid opts.privileged, .runCommand], .error e)
      ∧ run_output true true opts (.ok out)
        = ([.mkTempDir, .add_cid opts.privileged, .runCommand,
            .remove_cid opts.privileged], .ok out)
      ∧ run_output true true opts (.error e)
        = ([.mkTempDir, .add_cid opts.privileged, .runCommand], .error e) := by
  intro opts s out e
  refine ⟨rfl, rfl, rfl, rfl⟩

/-- C10: whenever the effective user id is not root, `run` and `run_output`
fail immediately with the root error — the trace is empty, so no cid file
location is created, nothing is registered with the signal registry and no
container is spawned — for every `RunOpts`, in particular also when
`privileged` is false, and regardless of whether the temp dir creation would
have succeeded. -/
theorem run_requires_root :
    ∀ (opts : RunOpts) (tempdirOk : Bool) (wr : Except String Int)
      (wo : Except String Output),
      run false tempdirOk opts wr = ([], .error rootError)
      ∧ run_output false tempdirOk opts wo = ([], .error rootError)
      ∧ run false tempdirOk { opts with privileged := false } wr
        = ([], .error rootError) := by
  intro opts tempdirOk wr wo
  refine ⟨rfl, rfl, rfl⟩

end BlueBuild
